import Mathlib

/-!
Verification of the DC_PIZZA crawler core (`src/dc.py`).

The development shallowly embeds the three core functions of the source:

* `normalize_date` — the date-token normalizer (`dc.py`, lines 41-62),
  including a direct model of CPython `strptime` for the five fixed
  format strings the source uses (`"%Y.%m.%d"`, `"%y.%m.%d"`, `"%m.%d"`,
  `"%m/%d"`, `"%Y-%m-%d"`): each `%`-directive is the regex alternation
  CPython's `_strptime` compiles it to, matched deterministically
  (first alternative wins; no backtracking is ever needed because every
  two-character alternative requires its second character to be a digit
  while the following literal separator is never a digit), the whole
  string must be consumed, and the parsed fields must form a valid
  Gregorian calendar date, exactly as `datetime` validates them.
  Digits are modelled as the ASCII digits `'0'`-`'9'` (the source could
  in principle also accept exotic Unicode digits via Python's regex
  `\d`; no claim depends on those) and stripping removes the ASCII
  whitespace characters.

* `get_counts_in_range` — the per-keyword paginated crawl
  (`dc.py`, lines 65-144).  The network is modelled as an environment
  `fetch : Nat → FetchResult` giving, for each page number, the outcome
  of `SESSION.get` plus the rows the HTML parser would extract from the
  body; `dt.date.today()` is the explicit parameter `today`.  Besides
  the daily-count dictionary the model returns the trace of observable
  events (requests issued, progress-callback messages, `time.sleep`
  calls), so that temporal claims about pagination and backoff are
  statable.  The Python dictionary keyed by `parsed.isoformat()` is
  modelled as an insertion-ordered association list keyed by the date
  itself (`isoformat` is injective on dates, and zero-padded ISO strings
  compare exactly like the dates themselves).

* `fetch_counts` — the aggregator (`dc.py`, lines 147-173).  The pandas
  `sort_values(by=["date", "brand"])` is modelled as a sort by the
  (date, brand) key; string-sorting the ISO date keys orders them
  exactly like the underlying dates, and brand strings compare by code
  point in both Python and Lean.
-/

/-- A calendar date as Python's `datetime.date`: year, month, day. -/
structure Date where
  year : Nat
  month : Nat
  day : Nat
deriving DecidableEq

/-- Python `date` comparison: lexicographic on (year, month, day). -/
def Date.ltb (a b : Date) : Bool :=
  decide (a.year < b.year ∨ (a.year = b.year ∧
    (a.month < b.month ∨ (a.month = b.month ∧ a.day < b.day))))

/-- Non-strict date comparison, `a ≤ b` as Python evaluates it. -/
def Date.leb (a b : Date) : Bool :=
  !(Date.ltb b a)

/-- Gregorian leap-year test, as `calendar.isleap` / `datetime`. -/
def isLeap (y : Nat) : Bool :=
  y % 4 == 0 && (y % 100 != 0 || y % 400 == 0)

/-- Number of days in a month of a given year (Gregorian). -/
def daysInMonth (y m : Nat) : Nat :=
  if m = 2 then (if isLeap y then 29 else 28)
  else if m = 4 ∨ m = 6 ∨ m = 9 ∨ m = 11 then 30
  else 31

/-- `d - dt.timedelta(days=1)`: the previous calendar day, borrowing
across month and year boundaries as Python date arithmetic does. -/
def Date.pred (d : Date) : Date :=
  if 1 < d.day then ⟨d.year, d.month, d.day - 1⟩
  else if 1 < d.month then ⟨d.year, d.month - 1, daysInMonth d.year (d.month - 1)⟩
  else ⟨d.year - 1, 12, 31⟩

/-- ASCII digit test (the character class the strptime regexes use). -/
def isDig (c : Char) : Bool :=
  decide (48 ≤ c.toNat) && decide (c.toNat ≤ 57)

/-- Numeric value of an ASCII digit character. -/
def digitVal (c : Char) : Nat :=
  c.toNat - 48

/-- strptime `%Y`: exactly four digits (regex `\d\d\d\d`). -/
def parseY : List Char → Option (Nat × List Char)
  | a :: b :: c :: d :: rest =>
    if isDig a && isDig b && isDig c && isDig d then
      some (1000 * digitVal a + 100 * digitVal b + 10 * digitVal c + digitVal d, rest)
    else none
  | _ => none

/-- strptime `%y`: exactly two digits (regex `\d\d`), mapped to a full
year as CPython does: 00-68 → 2000-2068, 69-99 → 1969-1999. -/
def parseY2 : List Char → Option (Nat × List Char)
  | a :: b :: rest =>
    if isDig a && isDig b then
      let v := 10 * digitVal a + digitVal b
      some ((if v ≤ 68 then 2000 + v else 1900 + v), rest)
    else none
  | _ => none

/-- strptime `%m`: regex `1[0-2]|0[1-9]|[1-9]`, alternatives tried in
order.  A two-character alternative only fires when the second
character is a digit, so committing to it never loses a parse (the
next token in every format here is a non-digit literal separator). -/
def parseM : List Char → Option (Nat × List Char)
  | [] => none
  | a :: rest =>
    match rest with
    | b :: rest2 =>
      if a.toNat = 49 ∧ 48 ≤ b.toNat ∧ b.toNat ≤ 50 then
        some (10 + digitVal b, rest2)
      else if a.toNat = 48 ∧ 49 ≤ b.toNat ∧ b.toNat ≤ 57 then
        some (digitVal b, rest2)
      else if 49 ≤ a.toNat ∧ a.toNat ≤ 57 then
        some (digitVal a, rest)
      else none
    | [] =>
      if 49 ≤ a.toNat ∧ a.toNat ≤ 57 then some (digitVal a, []) else none

/-- strptime `%d`: regex `3[01]|[12]\d|0[1-9]|[1-9]`, alternatives in
order, same determinism argument as for `parseM`. -/
def parseD : List Char → Option (Nat × List Char)
  | [] => none
  | a :: rest =>
    match rest with
    | b :: rest2 =>
      if a.toNat = 51 ∧ 48 ≤ b.toNat ∧ b.toNat ≤ 49 then
        some (30 + digitVal b, rest2)
      else if (49 ≤ a.toNat ∧ a.toNat ≤ 50) ∧ isDig b then
        some (10 * digitVal a + digitVal b, rest2)
      else if a.toNat = 48 ∧ 49 ≤ b.toNat ∧ b.toNat ≤ 57 then
        some (digitVal b, rest2)
      else if 49 ≤ a.toNat ∧ a.toNat ≤ 57 then
        some (digitVal a, rest)
      else none
    | [] =>
      if 49 ≤ a.toNat ∧ a.toNat ≤ 57 then some (digitVal a, []) else none

/-- Consume one literal separator character of the format string. -/
def expect (c : Char) : List Char → Option (List Char)
  | x :: rest => if x = c then some rest else none
  | [] => none

/-- `datetime(year, month, day)` validity: the constructor raises
`ValueError` outside these bounds (month and day lower bounds are
already guaranteed by the `%m` / `%d` regexes). -/
def mkDate (y m d : Nat) : Option Date :=
  if 1 ≤ y ∧ y ≤ 9999 ∧ d ≤ daysInMonth y m then some ⟨y, m, d⟩ else none

/-- The five format strings of `dc.py` line 54. -/
inductive Fmt
  | YmdDot
  | ymdDot
  | mdDot
  | mdSlash
  | YmdDash
deriving DecidableEq

/-- One `dt.datetime.strptime(text, fmt)` attempt followed by the
`parsed.replace(year=today.year)` adjustment the source applies to the
month-day-only formats (strptime defaults their year to 1900; Feb 29
therefore never parses under them, 1900 not being a leap year). -/
def runFmt (today : Date) : Fmt → List Char → Option Date
  | .YmdDot, cs =>
    (parseY cs).bind fun yr =>
    (expect '.' yr.2).bind fun r2 =>
    (parseM r2).bind fun mr =>
    (expect '.' mr.2).bind fun r4 =>
    (parseD r4).bind fun dr =>
    if dr.2 = [] then mkDate yr.1 mr.1 dr.1 else none
  | .ymdDot, cs =>
    (parseY2 cs).bind fun yr =>
    (expect '.' yr.2).bind fun r2 =>
    (parseM r2).bind fun mr =>
    (expect '.' mr.2).bind fun r4 =>
    (parseD r4).bind fun dr =>
    if dr.2 = [] then mkDate yr.1 mr.1 dr.1 else none
  | .mdDot, cs =>
    (parseM cs).bind fun mr =>
    (expect '.' mr.2).bind fun r2 =>
    (parseD r2).bind fun dr =>
    if dr.2 = [] then (mkDate 1900 mr.1 dr.1).map (fun x => ⟨today.year, x.month, x.day⟩)
    else none
  | .mdSlash, cs =>
    (parseM cs).bind fun mr =>
    (expect '/' mr.2).bind fun r2 =>
    (parseD r2).bind fun dr =>
    if dr.2 = [] then (mkDate 1900 mr.1 dr.1).map (fun x => ⟨today.year, x.month, x.day⟩)
    else none
  | .YmdDash, cs =>
    (parseY cs).bind fun yr =>
    (expect '-' yr.2).bind fun r2 =>
    (parseM r2).bind fun mr =>
    (expect '-' mr.2).bind fun r4 =>
    (parseD r4).bind fun dr =>
    if dr.2 = [] then mkDate yr.1 mr.1 dr.1 else none

/-- The format list in source order (`dc.py` line 54). -/
def FORMATS : List Fmt :=
  [.YmdDot, .ymdDot, .mdDot, .mdSlash, .YmdDash]

/-- The format list in the order the specification describes:
4-digit-year forms (dot or dash separated) first, then the
2-digit-year form, then the month-day-only forms. -/
def SPEC_FORMATS : List Fmt :=
  [.YmdDot, .YmdDash, .ymdDot, .mdDot, .mdSlash]

/-- The `for fmt in (...)` loop of `dc.py` lines 54-61: first format
that parses wins. -/
def tryFormats (today : Date) : List Fmt → List Char → Option Date
  | [], _ => none
  | f :: fs, cs =>
    match runFmt today f cs with
    | some d => some d
    | none => tryFormats today fs cs

/-- Python `str.strip()` (restricted to ASCII whitespace). -/
def pyStrip (cs : List Char) : List Char :=
  ((cs.dropWhile Char.isWhitespace).reverse.dropWhile Char.isWhitespace).reverse

/-- `normalize_date` (`dc.py`, lines 41-62): strip, keep the part
before the first space, special-case the today / yesterday tokens and
time-of-day strings, then try the strptime formats in source order. -/
def normalize_date (text : String) (today : Date) : Option Date :=
  let t0 := pyStrip text.data
  let t := if t0.contains ' ' then t0.takeWhile (fun c => c ≠ ' ') else t0
  if t = "오늘".data then some today
  else if t = "어제".data then some (Date.pred today)
  else if t.contains ':' then some today
  else tryFormats today FORMATS t

/-- The same normalizer with the format list in the specification's
most-specific-first order; used to state the refinement claim that the
source's resolution order is extensionally the spec's order. -/
def normalize_date_specOrder (text : String) (today : Date) : Option Date :=
  let t0 := pyStrip text.data
  let t := if t0.contains ' ' then t0.takeWhile (fun c => c ≠ ' ') else t0
  if t = "오늘".data then some today
  else if t = "어제".data then some (Date.pred today)
  else if t.contains ':' then some today
  else tryFormats today SPEC_FORMATS t

example : normalize_date "2024.03.01" ⟨2025, 6, 7⟩ = some ⟨2024, 3, 1⟩ := by decide
example : normalize_date "03.01" ⟨2025, 6, 7⟩ = some ⟨2025, 3, 1⟩ := by decide
example : normalize_date "14:32" ⟨2025, 6, 7⟩ = some ⟨2025, 6, 7⟩ := by decide
example : normalize_date "오늘" ⟨2025, 6, 7⟩ = some ⟨2025, 6, 7⟩ := by decide
example : normalize_date "어제" ⟨2025, 6, 7⟩ = some ⟨2025, 6, 6⟩ := by decide
example : normalize_date "not a date" ⟨2025, 6, 7⟩ = none := by decide
example : normalize_date "2024-03-01" ⟨2025, 6, 7⟩ = some ⟨2024, 3, 1⟩ := by decide
example : normalize_date "24.03.01" ⟨2025, 6, 7⟩ = some ⟨2024, 3, 1⟩ := by decide
example : normalize_date "02.29" ⟨2024, 6, 7⟩ = none := by decide
example : normalize_date "2024.02.29" ⟨2025, 6, 7⟩ = some ⟨2024, 2, 29⟩ := by decide
example : normalize_date "2023.02.29" ⟨2025, 6, 7⟩ = none := by decide
example : normalize_date " 12.25 " ⟨2025, 6, 7⟩ = some ⟨2025, 12, 25⟩ := by decide
example : normalize_date "12/25" ⟨2025, 6, 7⟩ = some ⟨2025, 12, 25⟩ := by decide
example : normalize_date "2024.03.01 11:22" ⟨2025, 6, 7⟩ = some ⟨2024, 3, 1⟩ := by decide

/-- One listing row (`tr.ub-content`), as the core consumes it: only
the `.gall_date` cell matters; `none` models an absent date cell
(`row.select_one(".gall_date")` returning `None`). -/
structure Row where
  date_tag : Option String
deriving DecidableEq

/-- Outcome of `SESSION.get` for one page, after the transport-level
retries: a read timeout, another `RequestException`, or a response
with its status code and the rows `soup.select("tr.ub-content")`
extracts from its body. -/
inductive FetchResult
  | readTimeout
  | requestError
  | response (status : Nat) (rows : List Row)
deriving DecidableEq

/-- Observable events of one `get_counts_in_range` run, in order:
requests issued, progress-callback reports, `print`-only messages and
`time.sleep` calls. -/
inductive Ev
  | progressStart (page : Nat)
  | request (page : Nat)
  | progressTimeout (page : Nat)
  | progressReqFail (page : Nat)
  | progressBadStatus (page : Nat) (status : Nat)
  | printNoRows (page : Nat)
  | sleepBackoff
  | sleepInterPage
deriving DecidableEq

/-- The `daily_count` dictionary: insertion-ordered association list
from date to count (keys are `parsed.isoformat()` strings in the
source; `isoformat` is injective, so the date itself is the key). -/
abbrev DailyCount := List (Date × Nat)

/-- `daily_count[parsed.isoformat()] += 1` on a `defaultdict(int)`:
increment an existing entry in place, or append a new entry with
count 1, preserving insertion order. -/
def bump (dc : DailyCount) (d : Date) : DailyCount :=
  match dc with
  | [] => [(d, 1)]
  | (k, v) :: rest => if k = d then (k, v + 1) :: rest else (k, v) :: bump rest d

/-- The `for row in rows` loop (`dc.py`, lines 120-136): skip rows
without a date cell, skip rows whose date text does not normalize,
append every normalized date to `parsed_dates`, and count only the
rows whose date lies inside the window.  Returns the updated
dictionary together with `parsed_dates`. -/
def processRows (today start_date end_date : Date) (dc : DailyCount) :
    List Row → DailyCount × List Date
  | [] => (dc, [])
  | row :: rest =>
    match row.date_tag with
    | none => processRows today start_date end_date dc rest
    | some txt =>
      match normalize_date txt today with
      | none => processRows today start_date end_date dc rest
      | some parsed =>
        let dc' :=
          if Date.ltb parsed start_date then dc
          else if Date.ltb end_date parsed then dc
          else bump dc parsed
        let r := processRows today start_date end_date dc' rest
        (r.1, parsed :: r.2)

/-- Python `min` on a list of dates (`none` on the empty list, where
Python would raise; the source guards with `if parsed_dates`). -/
def minList : List Date → Option Date
  | [] => none
  | d :: rest => some (rest.foldl (fun a b => if Date.ltb b a then b else a) d)

/-- The page loop of `get_counts_in_range` (`dc.py`, lines 77-142),
over an explicit list of remaining page numbers.  Each page: report
progress, issue the request; on a read timeout continue immediately;
on another request error or a non-200 status sleep one second and
continue; on an empty row set break; otherwise process the rows,
break if the oldest normalized date on the page predates the window
start, else sleep half a second and continue. -/
def crawlPages (fetch : Nat → FetchResult) (today start_date end_date : Date) :
    List Nat → DailyCount → DailyCount × List Ev
  | [], dc => (dc, [])
  | p :: rest, dc =>
    match fetch p with
    | .readTimeout =>
      let r := crawlPages fetch today start_date end_date rest dc
      (r.1, Ev.progressStart p :: Ev.request p :: Ev.progressTimeout p :: r.2)
    | .requestError =>
      let r := crawlPages fetch today start_date end_date rest dc
      (r.1, Ev.progressStart p :: Ev.request p :: Ev.progressReqFail p ::
        Ev.sleepBackoff :: r.2)
    | .response status rows =>
      if status ≠ 200 then
        let r := crawlPages fetch today start_date end_date rest dc
        (r.1, Ev.progressStart p :: Ev.request p :: Ev.progressBadStatus p status ::
          Ev.sleepBackoff :: r.2)
      else if rows = [] then
        (dc, [Ev.progressStart p, Ev.request p, Ev.printNoRows p])
      else
        let pr := processRows today start_date end_date dc rows
        if (match minList pr.2 with
            | some m => Date.ltb m start_date
            | none => false) then
          (pr.1, [Ev.progressStart p, Ev.request p])
        else
          let r := crawlPages fetch today start_date end_date rest pr.1
          (r.1, Ev.progressStart p :: Ev.request p :: Ev.sleepInterPage :: r.2)

/-- `get_counts_in_range` (`dc.py`, lines 65-144): crawl pages 1
through `max_page` starting from an empty dictionary.  `fetch` is the
network/parsing environment for this keyword, `today` models
`dt.date.today()`. -/
def get_counts_in_range (fetch : Nat → FetchResult)
    (start_date end_date today : Date) (max_page : Nat) : DailyCount × List Ev :=
  crawlPages fetch today start_date end_date (List.range' 1 max_page) []

/-- One row of the final aggregated table:
`{"brand": brand, "date": day, "count": count}`. -/
structure ResultRow where
  brand : String
  date : Date
  count : Nat
deriving DecidableEq

/-- Python string `<`: lexicographic comparison by code point. -/
def strLtb : List Char → List Char → Bool
  | [], [] => false
  | [], _ :: _ => true
  | _ :: _, [] => false
  | a :: as, b :: bs =>
    if a.toNat < b.toNat then true
    else if b.toNat < a.toNat then false
    else strLtb as bs

/-- Python string `<=`, by code point. -/
def strLeb (a b : List Char) : Bool :=
  !(strLtb b a)

/-- The sort key order of `df.sort_values(by=["date", "brand"])`:
by date first (ISO strings of dates sort exactly like dates), then by
brand string in code-point order. -/
def RowLe (a b : ResultRow) : Prop :=
  Date.ltb a.date b.date = true ∨
    (a.date = b.date ∧ strLeb a.brand.data b.brand.data = true)

instance : DecidableRel RowLe := fun _ _ =>
  inferInstanceAs (Decidable (_ ∨ _ ∧ _))

/-- The (brand, date) key of a table row. -/
def rowKey (r : ResultRow) : String × Date :=
  (r.brand, r.date)

/-- `fetch_counts` (`dc.py`, lines 147-173): run the crawl once per
brand, flatten each brand's dictionary into table rows, and sort by
(date, brand); an empty table is returned as-is.  `net` gives each
brand's network environment. -/
def fetch_counts (net : String → Nat → FetchResult) (brands : List String)
    (start_date end_date today : Date) (max_page : Nat) : List ResultRow :=
  let all_data := brands.flatMap (fun brand =>
    (get_counts_in_range (net brand) start_date end_date today max_page).1.map
      (fun kv => ⟨brand, kv.1, kv.2⟩))
  if all_data.isEmpty then [] else List.insertionSort RowLe all_data

/-- The normalized dates of a page's rows, in row order: exactly the
`parsed_dates` list the source accumulates. -/
def normalizedDates (today : Date) (rows : List Row) : List Date :=
  rows.filterMap (fun r => r.date_tag.bind (fun t => normalize_date t today))

/-- Decides whether page `p`, when reached, terminates the page loop:
a 200 response with no extractable rows, or one whose oldest
normalized date predates the window start. -/
def pageStops (fetch : Nat → FetchResult) (today start_date : Date) (p : Nat) : Bool :=
  match fetch p with
  | .response status rows =>
    status == 200 &&
      (rows.isEmpty ||
        (match minList (normalizedDates today rows) with
         | some m => Date.ltb m start_date
         | none => false))
  | _ => false

example :
    (get_counts_in_range
      (fun _ => .response 200
        [⟨some "2024.03.03"⟩, ⟨some "2024.03.02"⟩, ⟨some "2024.03.02"⟩, ⟨some "2024.02.28"⟩])
      ⟨2024, 3, 1⟩ ⟨2024, 3, 3⟩ ⟨2024, 3, 5⟩ 50).1 =
    [(⟨2024, 3, 3⟩, 1), (⟨2024, 3, 2⟩, 2)] := by decide

example :
    (get_counts_in_range
      (fun _ => .response 200
        [⟨some "2024.03.03"⟩, ⟨some "2024.02.28"⟩])
      ⟨2024, 3, 1⟩ ⟨2024, 3, 3⟩ ⟨2024, 3, 5⟩ 50).2 =
    [Ev.progressStart 1, Ev.request 1] := by decide

example :
    fetch_counts
      (fun _ _ => .response 200 [⟨some "2024.03.03"⟩, ⟨some "2024.02.28"⟩])
      ["b", "a"] ⟨2024, 3, 1⟩ ⟨2024, 3, 3⟩ ⟨2024, 3, 5⟩ 50 =
    [⟨"a", ⟨2024, 3, 3⟩, 1⟩, ⟨"b", ⟨2024, 3, 3⟩, 1⟩] := by decide

lemma Date.ltb_iff (a b : Date) :
    Date.ltb a b = true ↔
      (a.year < b.year ∨ (a.year = b.year ∧
        (a.month < b.month ∨ (a.month = b.month ∧ a.day < b.day)))) := by
  simp [Date.ltb]

lemma Date.leb_iff (a b : Date) :
    Date.leb a b = true ↔ Date.ltb b a = false := by
  simp [Date.leb]

lemma Date.eq_of_not_ltb {a b : Date} (h1 : Date.ltb a b = false)
    (h2 : Date.ltb b a = false) : a = b := by
  cases a with
  | mk ay am ad =>
    cases b with
    | mk bY bm bd =>
      simp only [Date.ltb, decide_eq_false_iff_not] at h1 h2
      push_neg at h1 h2
      simp only [Date.mk.injEq]
      omega

lemma Date.ltb_trans {a b c : Date} (h1 : Date.ltb a b = true)
    (h2 : Date.ltb b c = true) : Date.ltb a c = true := by
  rw [Date.ltb_iff] at h1 h2 ⊢
  omega

lemma Date.ltb_irrefl (a : Date) : Date.ltb a a = false := by
  rw [show (false = decide False) by simp, Date.ltb]
  simp

/-- Membership in `bump`: an entry is either the bumped key or a key
that was already present. -/
lemma mem_bump {dc : DailyCount} {d k : Date} {v : Nat}
    (h : (k, v) ∈ bump dc d) : k = d ∨ ∃ v', (k, v') ∈ dc := by
  induction dc with
  | nil =>
    simp [bump] at h
    exact Or.inl h.1
  | cons kv rest ih =>
    obtain ⟨k0, v0⟩ := kv
    simp only [bump] at h
    by_cases hk : k0 = d
    · subst hk
      rw [if_pos rfl] at h
      rcases List.mem_cons.mp h with heq | hmem
      · injection heq with h1 _
        exact Or.inl h1
      · exact Or.inr ⟨v, List.mem_cons_of_mem _ hmem⟩
    · rw [if_neg hk] at h
      rcases List.mem_cons.mp h with heq | hmem
      · injection heq with h1 h2
        subst h1
        exact Or.inr ⟨v0, List.mem_cons_self _ _⟩
      · rcases ih hmem with h1 | ⟨v', h2⟩
        · exact Or.inl h1
        · exact Or.inr ⟨v', List.mem_cons_of_mem _ h2⟩

/-- Keys produced by the row loop: either already present, or inside
the window (`dc.py` lines 131-136 count a row only after both window
checks pass). -/
lemma processRows_mem {today s e : Date} {rows : List Row} {dc : DailyCount}
    {k : Date} {v : Nat} (h : (k, v) ∈ (processRows today s e dc rows).1) :
    (∃ v', (k, v') ∈ dc) ∨ (Date.ltb k s = false ∧ Date.ltb e k = false) := by
  induction rows generalizing dc with
  | nil =>
    simp [processRows] at h
    exact Or.inl ⟨v, h⟩
  | cons row rest ih =>
    obtain ⟨dt⟩ := row
    cases dt with
    | none =>
      simp only [processRows] at h
      exact ih h
    | some txt =>
      simp only [processRows] at h
      cases hnd : normalize_date txt today with
      | none =>
        rw [hnd] at h
        exact ih h
      | some parsed =>
        rw [hnd] at h
        simp only at h
        by_cases h1 : Date.ltb parsed s = true
        · rw [if_pos h1] at h
          exact ih h
        · rw [if_neg h1] at h
          by_cases h2 : Date.ltb e parsed = true
          · rw [if_pos h2] at h
            exact ih h
          · rw [if_neg h2] at h
            rcases ih h with ⟨v', hv'⟩ | hw
            · rcases mem_bump hv' with hk | hin
              · subst hk
                exact Or.inr ⟨by simpa using h1, by simpa using h2⟩
              · exact Or.inl hin
            · exact Or.inr hw

/-- Keys produced by the page loop: either already present, or inside
the window. -/
lemma crawlPages_mem {fetch : Nat → FetchResult} {today s e : Date}
    {ps : List Nat} {dc : DailyCount} {k : Date} {v : Nat}
    (h : (k, v) ∈ (crawlPages fetch today s e ps dc).1) :
    (∃ v', (k, v') ∈ dc) ∨ (Date.ltb k s = false ∧ Date.ltb e k = false) := by
  induction ps generalizing dc with
  | nil =>
    simp [crawlPages] at h
    exact Or.inl ⟨v, h⟩
  | cons p rest ih =>
    simp only [crawlPages] at h
    cases hf : fetch p with
    | readTimeout =>
      rw [hf] at h
      exact ih h
    | requestError =>
      rw [hf] at h
      exact ih h
    | response status rows =>
      rw [hf] at h
      simp only at h
      by_cases hs : status ≠ 200
      · rw [if_pos hs] at h
        exact ih h
      · rw [if_neg hs] at h
        by_cases hr : rows = []
        · rw [if_pos hr] at h
          exact Or.inl ⟨v, h⟩
        · rw [if_neg hr] at h
          split at h
          · exact processRows_mem h
          · rcases ih h with ⟨v', hv'⟩ | hw
            · rcases processRows_mem hv' with hin | hw
              · exact Or.inl hin
              · exact Or.inr hw
            · exact Or.inr hw

/-- The `parsed_dates` list the row loop accumulates is exactly the
list of normalized dates of the page's rows, in-window or not. -/
lemma processRows_snd (today s e : Date) (rows : List Row) (dc : DailyCount) :
    (processRows today s e dc rows).2 = normalizedDates today rows := by
  induction rows generalizing dc with
  | nil => simp [processRows, normalizedDates]
  | cons row rest ih =>
    obtain ⟨dt⟩ := row
    cases dt with
    | none =>
      simpa only [processRows, normalizedDates, List.filterMap_cons, Option.bind]
        using ih dc
    | some txt =>
      cases hnd : normalize_date txt today with
      | none =>
        simp only [processRows, hnd, normalizedDates, List.filterMap_cons, Option.bind]
        exact ih dc
      | some parsed =>
        simp only [processRows, hnd, normalizedDates, List.filterMap_cons, Option.bind]
        rw [ih]
        rfl

/-- The dictionary after one page is the fold of the window-filtered
increment over the page's normalized dates. -/
lemma processRows_fst (today s e : Date) (rows : List Row) (dc : DailyCount) :
    (processRows today s e dc rows).1 =
      (normalizedDates today rows).foldl
        (fun acc d =>
          if Date.ltb d s then acc
          else if Date.ltb e d then acc else bump acc d) dc := by
  induction rows generalizing dc with
  | nil => simp [processRows, normalizedDates]
  | cons row rest ih =>
    obtain ⟨dt⟩ := row
    cases dt with
    | none =>
      simpa only [processRows, normalizedDates, List.filterMap_cons, Option.bind]
        using ih dc
    | some txt =>
      cases hnd : normalize_date txt today with
      | none =>
        simp only [processRows, hnd, normalizedDates, List.filterMap_cons, Option.bind]
        exact ih dc
      | some parsed =>
        simp only [processRows, hnd, normalizedDates, List.filterMap_cons, Option.bind,
          List.foldl_cons]
        exact ih _

/-- A request event can only name a page of the page list. -/
lemma request_mem_pages {fetch : Nat → FetchResult} {today s e : Date}
    {ps : List Nat} {dc : DailyCount} {q : Nat}
    (h : Ev.request q ∈ (crawlPages fetch today s e ps dc).2) : q ∈ ps := by
  induction ps generalizing dc with
  | nil => simp [crawlPages] at h
  | cons p rest ih =>
    simp only [crawlPages] at h
    cases hf : fetch p with
    | readTimeout =>
      rw [hf] at h
      simp only [List.mem_cons] at h
      rcases h with h | h | h | h
      · simp at h
      · injection h with h1
        simp [h1]
      · simp at h
      · exact List.mem_cons_of_mem _ (ih h)
    | requestError =>
      rw [hf] at h
      simp only [List.mem_cons] at h
      rcases h with h | h | h | h | h
      · simp at h
      · injection h with h1
        simp [h1]
      · simp at h
      · simp at h
      · exact List.mem_cons_of_mem _ (ih h)
    | response status rows =>
      rw [hf] at h
      simp only at h
      by_cases hs : status ≠ 200
      · rw [if_pos hs] at h
        simp only [List.mem_cons] at h
        rcases h with h | h | h | h | h
        · simp at h
        · injection h with h1
          simp [h1]
        · simp at h
        · simp at h
        · exact List.mem_cons_of_mem _ (ih h)
      · rw [if_neg hs] at h
        by_cases hr : rows = []
        · rw [if_pos hr] at h
          simp only [List.mem_cons] at h
          rcases h with h | h | h | h
          · simp at h
          · injection h with h1
            simp [h1]
          · simp at h
          · simp at h
        · rw [if_neg hr] at h
          split at h
          · simp only [List.mem_cons] at h
            rcases h with h | h | h
            · simp at h
            · injection h with h1
              simp [h1]
            · simp at h
          · simp only [List.mem_cons] at h
            rcases h with h | h | h | h
            · simp at h
            · injection h with h1
              simp [h1]
            · simp at h
            · exact List.mem_cons_of_mem _ (ih h)

/-- Once a page satisfying the stopping condition is reached, the page
loop breaks there: no strictly later page is ever requested. -/
lemma no_later_requests_of_stop (fetch : Nat → FetchResult) (today s e : Date)
    (q : Nat) :
    ∀ (ps : List Nat) (p : Nat) (dc : DailyCount),
      List.Pairwise (· < ·) ps → p ∈ ps →
      pageStops fetch today s p = true → p < q →
      Ev.request q ∉ (crawlPages fetch today s e ps dc).2 := by
  intro ps
  induction ps with
  | nil =>
    intro p dc _ hmem
    simp at hmem
  | cons a rest ih =>
    intro p dc hps hmem hstop hq
    obtain ⟨ha, hrest⟩ := List.pairwise_cons.mp hps
    rcases List.mem_cons.mp hmem with rfl | hmem'
    · -- the head page is the stopping page: evaluate the break
      unfold pageStops at hstop
      cases hf : fetch p with
      | readTimeout =>
        rw [hf] at hstop
        simp at hstop
      | requestError =>
        rw [hf] at hstop
        simp at hstop
      | response status rows =>
        rw [hf] at hstop
        simp only [Bool.and_eq_true, beq_iff_eq] at hstop
        obtain ⟨h200, hdisj⟩ := hstop
        subst h200
        simp only [crawlPages]
        rw [hf]
        simp only [ne_eq, not_true_eq_false, if_false, reduceIte]
        by_cases hrows : rows = []
        · rw [if_pos hrows]
          intro hc
          simp only [List.mem_cons] at hc
          rcases hc with hc | hc | hc | hc
          · simp at hc
          · injection hc with h1
            omega
          · simp at hc
          · simp at hc
        · rw [if_neg hrows]
          have hmin :
              (match minList (processRows today s e dc rows).2 with
               | some m => Date.ltb m s
               | none => false) = true := by
            rw [processRows_snd]
            rcases (Bool.or_eq_true _ _).mp hdisj with hemp | hm
            · exact absurd (List.isEmpty_iff.mp hemp) hrows
            · exact hm
          rw [if_pos hmin]
          intro hc
          simp only [List.mem_cons] at hc
          rcases hc with hc | hc | hc
          · simp at hc
          · injection hc with h1
            omega
          · simp at hc
    · -- the stopping page is deeper in the list: the head page either
      -- recurses (induction) or breaks even earlier
      have hap : a < p := ha p hmem'
      have haq : a ≠ q := by omega
      cases hf : fetch a with
      | readTimeout =>
        simp only [crawlPages]
        rw [hf]
        intro hc
        simp only [List.mem_cons] at hc
        rcases hc with hc | hc | hc | hc
        · simp at hc
        · injection hc with h1
          omega
        · simp at hc
        · exact ih p dc hrest hmem' hstop hq hc
      | requestError =>
        simp only [crawlPages]
        rw [hf]
        intro hc
        simp only [List.mem_cons] at hc
        rcases hc with hc | hc | hc | hc | hc
        · simp at hc
        · injection hc with h1
          omega
        · simp at hc
        · simp at hc
        · exact ih p dc hrest hmem' hstop hq hc
      | response status rows =>
        simp only [crawlPages]
        rw [hf]
        simp only
        by_cases hs : status ≠ 200
        · rw [if_pos hs]
          intro hc
          simp only [List.mem_cons] at hc
          rcases hc with hc | hc | hc | hc | hc
          · simp at hc
          · injection hc with h1
            omega
          · simp at hc
          · simp at hc
          · exact ih p dc hrest hmem' hstop hq hc
        · rw [if_neg hs]
          by_cases hr : rows = []
          · rw [if_pos hr]
            intro hc
            simp only [List.mem_cons] at hc
            rcases hc with hc | hc | hc | hc
            · simp at hc
            · injection hc with h1
              omega
            · simp at hc
            · simp at hc
          · rw [if_neg hr]
            split
            · intro hc
              simp only [List.mem_cons] at hc
              rcases hc with hc | hc | hc
              · simp at hc
              · injection hc with h1
                omega
              · simp at hc
            · intro hc
              simp only [List.mem_cons] at hc
              rcases hc with hc | hc | hc | hc
              · simp at hc
              · injection hc with h1
                omega
              · simp at hc
              · exact ih p _ hrest hmem' hstop hq hc

/-- C1 — Every date key of `get_counts_in_range`'s result lies within
the closed window `[start_date, end_date]`, and hence so does the date
of every row `fetch_counts` emits: no out-of-window date ever appears
in the output. -/
theorem spec_C1_no_out_of_window_dates
    (fetch : Nat → FetchResult) (net : String → Nat → FetchResult)
    (brands : List String) (s e today : Date) (mp : Nat) :
    (∀ k v, (k, v) ∈ (get_counts_in_range fetch s e today mp).1 →
      Date.leb s k = true ∧ Date.leb k e = true) ∧
    (∀ r, r ∈ fetch_counts net brands s e today mp →
      Date.leb s r.date = true ∧ Date.leb r.date e = true) := by
  have main : ∀ (f : Nat → FetchResult) (k : Date) (v : Nat),
      (k, v) ∈ (get_counts_in_range f s e today mp).1 →
      Date.leb s k = true ∧ Date.leb k e = true := by
    intro f k v h
    rcases crawlPages_mem (h := h) with ⟨v', hv'⟩ | hw
    · simp at hv'
    · exact ⟨by simp [Date.leb, hw.1], by simp [Date.leb, hw.2]⟩
  refine ⟨fun k v h => main fetch k v h, ?_⟩
  intro r hr
  simp only [fetch_counts] at hr
  split at hr
  · simp at hr
  · have hmem := (List.perm_insertionSort RowLe _).mem_iff.mp hr
    simp only [List.mem_flatMap, List.mem_map] at hmem
    obtain ⟨brand, _, kv, hkv, hrr⟩ := hmem
    obtain ⟨k, v⟩ := kv
    have := main (net brand) k v hkv
    rw [← hrr]
    exact this

/-- C1 witness: a concrete crawl whose single in-window date key is
certified inside the window by the theorem. -/
theorem spec_C1_no_out_of_window_dates_witness :
    ((⟨2024, 3, 2⟩, 1) ∈
      (get_counts_in_range
        (fun _ => .response 200 [⟨some "2024.03.02"⟩, ⟨some "2024.02.20"⟩])
        ⟨2024, 3, 1⟩ ⟨2024, 3, 3⟩ ⟨2024, 3, 5⟩ 3).1) ∧
    (Date.leb ⟨2024, 3, 1⟩ ⟨2024, 3, 2⟩ = true ∧
     Date.leb ⟨2024, 3, 2⟩ ⟨2024, 3, 3⟩ = true) :=
  ⟨by decide,
   (spec_C1_no_out_of_window_dates
      (fun _ => .response 200 [⟨some "2024.03.02"⟩, ⟨some "2024.02.20"⟩])
      (fun _ _ => .response 200 []) []
      ⟨2024, 3, 1⟩ ⟨2024, 3, 3⟩ ⟨2024, 3, 5⟩ 3).1
      ⟨2024, 3, 2⟩ 1 (by decide)⟩

/-- C2 — If a successful page's rows have a minimum normalized date
strictly earlier than the window start, the crawl never requests any
later page; and on that page the out-of-window rows are excluded from
the count but do participate in the minimum (the `parsed_dates` list
contains every normalized date, while the dictionary is the fold of
the window-filtered increment only). -/
theorem spec_C2_pagination_stop
    (fetch : Nat → FetchResult) (s e today : Date) (mp p : Nat)
    (rows : List Row) (m : Date)
    (hp : 1 ≤ p)
    (hf : fetch p = .response 200 rows)
    (hmin : minList (normalizedDates today rows) = some m)
    (hlt : Date.ltb m s = true) :
    (∀ q, p < q → Ev.request q ∉ (get_counts_in_range fetch s e today mp).2) ∧
    (∀ dc, (processRows today s e dc rows).2 = normalizedDates today rows ∧
      (processRows today s e dc rows).1 =
        (normalizedDates today rows).foldl
          (fun acc d =>
            if Date.ltb d s then acc
            else if Date.ltb e d then acc else bump acc d) dc) := by
  constructor
  · intro q hq hc
    have hqmem : q ∈ List.range' 1 mp := request_mem_pages hc
    have hqb := List.mem_range'_1.mp hqmem
    have hpmem : p ∈ List.range' 1 mp := List.mem_range'_1.mpr (by omega)
    have hstop : pageStops fetch today s p = true := by
      unfold pageStops
      rw [hf]
      simp only
      rw [hmin]
      simp [hlt]
    exact no_later_requests_of_stop fetch today s e q (List.range' 1 mp) p []
      (List.pairwise_lt_range' 1 mp) hpmem hstop hq hc
  · intro dc
    exact ⟨processRows_snd today s e rows dc, processRows_fst today s e rows dc⟩

/-- C2 witness: the spec's own scenario — window [2024-03-01,
2024-03-03], one page dated 03-03, 03-02, 03-02, 02-28; page 2 is
never requested. -/
theorem spec_C2_pagination_stop_witness :
    ((fun _ => FetchResult.response 200
        [⟨some "2024.03.03"⟩, ⟨some "2024.03.02"⟩, ⟨some "2024.03.02"⟩, ⟨some "2024.02.28"⟩])
        1 = FetchResult.response 200
        [⟨some "2024.03.03"⟩, ⟨some "2024.03.02"⟩, ⟨some "2024.03.02"⟩, ⟨some "2024.02.28"⟩] ∧
     minList (normalizedDates ⟨2024, 3, 5⟩
        [⟨some "2024.03.03"⟩, ⟨some "2024.03.02"⟩, ⟨some "2024.03.02"⟩, ⟨some "2024.02.28"⟩]) =
        some ⟨2024, 2, 28⟩ ∧
     Date.ltb ⟨2024, 2, 28⟩ ⟨2024, 3, 1⟩ = true) ∧
    Ev.request 2 ∉
      (get_counts_in_range
        (fun _ => FetchResult.response 200
          [⟨some "2024.03.03"⟩, ⟨some "2024.03.02"⟩, ⟨some "2024.03.02"⟩, ⟨some "2024.02.28"⟩])
        ⟨2024, 3, 1⟩ ⟨2024, 3, 3⟩ ⟨2024, 3, 5⟩ 50).2 :=
  ⟨⟨by decide, by decide, by decide⟩,
   (spec_C2_pagination_stop
      (fun _ => FetchResult.response 200
        [⟨some "2024.03.03"⟩, ⟨some "2024.03.02"⟩, ⟨some "2024.03.02"⟩, ⟨some "2024.02.28"⟩])
      ⟨2024, 3, 1⟩ ⟨2024, 3, 3⟩ ⟨2024, 3, 5⟩ 50 1 _ ⟨2024, 2, 28⟩
      (by decide) rfl (by decide) (by decide)).1 2 (by decide)⟩

/-- C7 — A successful page with no extractable rows terminates the
page loop immediately: the loop returns the dictionary unchanged after
reporting only the page-start message, issuing the single request and
printing the no-rows notice — no retry of the page, no error event,
no further request for any later page. -/
theorem spec_C7_no_rows_terminates
    (fetch : Nat → FetchResult) (s e today : Date) (mp p : Nat)
    (rest : List Nat) (dc : DailyCount)
    (hf : fetch p = .response 200 []) :
    crawlPages fetch today s e (p :: rest) dc =
      (dc, [Ev.progressStart p, Ev.request p, Ev.printNoRows p]) ∧
    (1 ≤ p → ∀ q, p < q →
      Ev.request q ∉ (get_counts_in_range fetch s e today mp).2) := by
  constructor
  · simp only [crawlPages]
    rw [hf]
    simp
  · intro hp q hq hc
    have hqmem : q ∈ List.range' 1 mp := request_mem_pages hc
    have hqb := List.mem_range'_1.mp hqmem
    have hpmem : p ∈ List.range' 1 mp := List.mem_range'_1.mpr (by omega)
    have hstop : pageStops fetch today s p = true := by
      unfold pageStops
      rw [hf]
      simp
    exact no_later_requests_of_stop fetch today s e q (List.range' 1 mp) p []
      (List.pairwise_lt_range' 1 mp) hpmem hstop hq hc

/-- C7 witness: page 1 returns a 200 body with no rows; the loop stops
with the empty dictionary and page 2 is never requested. -/
theorem spec_C7_no_rows_terminates_witness :
    ((fun _ => FetchResult.response 200 ([] : List Row)) 1 =
        FetchResult.response 200 ([] : List Row)) ∧
    crawlPages (fun _ => FetchResult.response 200 ([] : List Row))
        ⟨2024, 3, 5⟩ ⟨2024, 3, 1⟩ ⟨2024, 3, 3⟩ [1, 2] [] =
      ([], [Ev.progressStart 1, Ev.request 1, Ev.printNoRows 1]) ∧
    Ev.request 2 ∉
      (get_counts_in_range (fun _ => FetchResult.response 200 ([] : List Row))
        ⟨2024, 3, 1⟩ ⟨2024, 3, 3⟩ ⟨2024, 3, 5⟩ 50).2 :=
  ⟨by decide,
   (spec_C7_no_rows_terminates
      (fun _ => FetchResult.response 200 ([] : List Row))
      ⟨2024, 3, 1⟩ ⟨2024, 3, 3⟩ ⟨2024, 3, 5⟩ 50 1 [2] [] (by decide)).1,
   (spec_C7_no_rows_terminates
      (fun _ => FetchResult.response 200 ([] : List Row))
      ⟨2024, 3, 1⟩ ⟨2024, 3, 3⟩ ⟨2024, 3, 5⟩ 50 1 [2] [] (by decide)).2
      (by decide) 2 (by decide)⟩

/-- C3 counterexample — the claim says every retryable failure,
including a read timeout, consumes a one-second backoff pause.  In a
run whose only failure is a read timeout on page 1 the failure is
reported and the crawl continues to page 2, yet no backoff sleep ever
occurs: the `ReadTimeout` handler (`dc.py` lines 92-97) has no
`time.sleep(1.0)` call, unlike the other two failure handlers. -/
theorem spec_C3_counterexample :
    (Ev.progressTimeout 1 ∈
      (get_counts_in_range
        (fun p => if p = 1 then FetchResult.readTimeout else FetchResult.response 200 [])
        ⟨2024, 3, 1⟩ ⟨2024, 3, 3⟩ ⟨2024, 3, 5⟩ 2).2 ∧
     Ev.request 2 ∈
      (get_counts_in_range
        (fun p => if p = 1 then FetchResult.readTimeout else FetchResult.response 200 [])
        ⟨2024, 3, 1⟩ ⟨2024, 3, 3⟩ ⟨2024, 3, 5⟩ 2).2) ∧
    Ev.sleepBackoff ∉
      (get_counts_in_range
        (fun p => if p = 1 then FetchResult.readTimeout else FetchResult.response 200 [])
        ⟨2024, 3, 1⟩ ⟨2024, 3, 3⟩ ⟨2024, 3, 5⟩ 2).2 := by
  decide

/-- C3 (amended) — On a retryable failure the crawl reports the
failure to the progress sink, leaves the counts untouched, does not
stop, and continues with the next page number; the one-second backoff
pause is consumed on connection-level errors and non-200 statuses,
but NOT on a read timeout, which proceeds to the next page with no
pause. -/
theorem spec_C3_retryable_failure_behavior
    (fetch : Nat → FetchResult) (s e today : Date) (p : Nat) (rest : List Nat)
    (dc : DailyCount) :
    (fetch p = .readTimeout →
      crawlPages fetch today s e (p :: rest) dc =
        ((crawlPages fetch today s e rest dc).1,
          Ev.progressStart p :: Ev.request p :: Ev.progressTimeout p ::
            (crawlPages fetch today s e rest dc).2)) ∧
    (fetch p = .requestError →
      crawlPages fetch today s e (p :: rest) dc =
        ((crawlPages fetch today s e rest dc).1,
          Ev.progressStart p :: Ev.request p :: Ev.progressReqFail p ::
            Ev.sleepBackoff :: (crawlPages fetch today s e rest dc).2)) ∧
    (∀ status rows, status ≠ 200 → fetch p = .response status rows →
      crawlPages fetch today s e (p :: rest) dc =
        ((crawlPages fetch today s e rest dc).1,
          Ev.progressStart p :: Ev.request p :: Ev.progressBadStatus p status ::
            Ev.sleepBackoff :: (crawlPages fetch today s e rest dc).2)) := by
  refine ⟨fun hf => ?_, fun hf => ?_, fun status rows hs hf => ?_⟩
  · simp only [crawlPages]
    rw [hf]
  · simp only [crawlPages]
    rw [hf]
  · simp only [crawlPages]
    rw [hf]
    simp only
    rw [if_pos hs]

/-- C3 (amended) witness: each failure kind exercised at page 1 of a
one-page crawl. -/
theorem spec_C3_retryable_failure_behavior_witness :
    crawlPages (fun _ => FetchResult.readTimeout)
        ⟨2024, 3, 5⟩ ⟨2024, 3, 1⟩ ⟨2024, 3, 3⟩ [1] [] =
      ((crawlPages (fun _ => FetchResult.readTimeout)
          ⟨2024, 3, 5⟩ ⟨2024, 3, 1⟩ ⟨2024, 3, 3⟩ [] []).1,
        Ev.progressStart 1 :: Ev.request 1 :: Ev.progressTimeout 1 ::
          (crawlPages (fun _ => FetchResult.readTimeout)
            ⟨2024, 3, 5⟩ ⟨2024, 3, 1⟩ ⟨2024, 3, 3⟩ [] []).2) ∧
    crawlPages (fun _ => FetchResult.requestError)
        ⟨2024, 3, 5⟩ ⟨2024, 3, 1⟩ ⟨2024, 3, 3⟩ [1] [] =
      ((crawlPages (fun _ => FetchResult.requestError)
          ⟨2024, 3, 5⟩ ⟨2024, 3, 1⟩ ⟨2024, 3, 3⟩ [] []).1,
        Ev.progressStart 1 :: Ev.request 1 :: Ev.progressReqFail 1 ::
          Ev.sleepBackoff ::
            (crawlPages (fun _ => FetchResult.requestError)
              ⟨2024, 3, 5⟩ ⟨2024, 3, 1⟩ ⟨2024, 3, 3⟩ [] []).2) ∧
    crawlPages (fun _ => FetchResult.response 503 [])
        ⟨2024, 3, 5⟩ ⟨2024, 3, 1⟩ ⟨2024, 3, 3⟩ [1] [] =
      ((crawlPages (fun _ => FetchResult.response 503 [])
          ⟨2024, 3, 5⟩ ⟨2024, 3, 1⟩ ⟨2024, 3, 3⟩ [] []).1,
        Ev.progressStart 1 :: Ev.request 1 :: Ev.progressBadStatus 1 503 ::
          Ev.sleepBackoff ::
            (crawlPages (fun _ => FetchResult.response 503 [])
              ⟨2024, 3, 5⟩ ⟨2024, 3, 1⟩ ⟨2024, 3, 3⟩ [] []).2) :=
  ⟨(spec_C3_retryable_failure_behavior (fun _ => FetchResult.readTimeout)
      ⟨2024, 3, 1⟩ ⟨2024, 3, 3⟩ ⟨2024, 3, 5⟩ 1 [] []).1 rfl,
   (spec_C3_retryable_failure_behavior (fun _ => FetchResult.requestError)
      ⟨2024, 3, 1⟩ ⟨2024, 3, 3⟩ ⟨2024, 3, 5⟩ 1 [] []).2.1 rfl,
   (spec_C3_retryable_failure_behavior (fun _ => FetchResult.response 503 [])
      ⟨2024, 3, 1⟩ ⟨2024, 3, 3⟩ ⟨2024, 3, 5⟩ 1 [] []).2.2 503 [] (by decide) rfl⟩

/-- C9 — A row with no date cell, or whose date text does not
normalize, contributes neither to the counts nor to the stop minimum;
a successful page on which no row's date parses never triggers the
early stop: the dictionary is passed on unchanged and the crawl
continues with the next page after the inter-page delay. -/
theorem spec_C9_unrecognized_rows_ignored
    (fetch : Nat → FetchResult) (s e today : Date) (p : Nat) (rest : List Nat)
    (dc : DailyCount) (row : Row) (rows : List Row) :
    ((row.date_tag = none ∨
        (∃ t, row.date_tag = some t ∧ normalize_date t today = none)) →
      processRows today s e dc (row :: rows) = processRows today s e dc rows) ∧
    (fetch p = .response 200 rows → normalizedDates today rows = [] → rows ≠ [] →
      crawlPages fetch today s e (p :: rest) dc =
        ((crawlPages fetch today s e rest dc).1,
          Ev.progressStart p :: Ev.request p :: Ev.sleepInterPage ::
            (crawlPages fetch today s e rest dc).2)) := by
  constructor
  · intro h
    obtain ⟨dt⟩ := row
    rcases h with h | ⟨t, h1, h2⟩
    · simp only at h
      subst h
      simp only [processRows]
    · simp only at h1
      subst h1
      simp only [processRows, h2]
  · intro hf hnorm hrows
    simp only [crawlPages]
    rw [hf]
    simp only [ne_eq, not_true_eq_false, if_false, reduceIte]
    rw [if_neg hrows]
    have hsnd : (processRows today s e dc rows).2 = [] := by
      rw [processRows_snd, hnorm]
    have hfst : (processRows today s e dc rows).1 = dc := by
      rw [processRows_fst, hnorm]
      rfl
    rw [hsnd, hfst]
    simp [minList]

/-- C9 witness: a page whose two rows have a missing date cell and an
unparseable date text; the crawl keeps going to page 2. -/
theorem spec_C9_unrecognized_rows_ignored_witness :
    (processRows ⟨2024, 3, 5⟩ ⟨2024, 3, 1⟩ ⟨2024, 3, 3⟩ []
        [⟨none⟩, ⟨some "garbage"⟩] =
      processRows ⟨2024, 3, 5⟩ ⟨2024, 3, 1⟩ ⟨2024, 3, 3⟩ [] [⟨some "garbage"⟩]) ∧
    crawlPages (fun _ => FetchResult.response 200 [⟨none⟩, ⟨some "garbage"⟩])
        ⟨2024, 3, 5⟩ ⟨2024, 3, 1⟩ ⟨2024, 3, 3⟩ [1] [] =
      ((crawlPages (fun _ => FetchResult.response 200 [⟨none⟩, ⟨some "garbage"⟩])
          ⟨2024, 3, 5⟩ ⟨2024, 3, 1⟩ ⟨2024, 3, 3⟩ [] []).1,
        Ev.progressStart 1 :: Ev.request 1 :: Ev.sleepInterPage ::
          (crawlPages (fun _ => FetchResult.response 200 [⟨none⟩, ⟨some "garbage"⟩])
            ⟨2024, 3, 5⟩ ⟨2024, 3, 1⟩ ⟨2024, 3, 3⟩ [] []).2) :=
  ⟨(spec_C9_unrecognized_rows_ignored
      (fun _ => FetchResult.response 200 [⟨none⟩, ⟨some "garbage"⟩])
      ⟨2024, 3, 1⟩ ⟨2024, 3, 3⟩ ⟨2024, 3, 5⟩ 1 [] [] ⟨none⟩
      [⟨some "garbage"⟩]).1 (Or.inl rfl),
   (spec_C9_unrecognized_rows_ignored
      (fun _ => FetchResult.response 200 [⟨none⟩, ⟨some "garbage"⟩])
      ⟨2024, 3, 1⟩ ⟨2024, 3, 3⟩ ⟨2024, 3, 5⟩ 1 [] [] ⟨none⟩
      [⟨none⟩, ⟨some "garbage"⟩]).2 rfl (by decide) (by decide)⟩

/-- `bump` preserves strict positivity of all counts (it creates new
entries at 1 and increments existing ones). -/
lemma bump_pos {dc : DailyCount} {d : Date}
    (h : ∀ kv ∈ dc, 1 ≤ kv.2) : ∀ kv ∈ bump dc d, 1 ≤ kv.2 := by
  induction dc with
  | nil =>
    intro kv hkv
    simp [bump] at hkv
    simp [hkv]
  | cons kv0 rest ih =>
    obtain ⟨k0, v0⟩ := kv0
    intro kv hkv
    simp only [bump] at hkv
    by_cases hk : k0 = d
    · rw [if_pos hk] at hkv
      rcases List.mem_cons.mp hkv with heq | hmem
      · subst heq
        simp
      · exact h kv (List.mem_cons_of_mem _ hmem)
    · rw [if_neg hk] at hkv
      rcases List.mem_cons.mp hkv with heq | hmem
      · subst heq
        exact h _ (List.mem_cons_self _ _)
      · exact ih (fun kv h' => h kv (List.mem_cons_of_mem _ h')) kv hmem

/-- The row loop preserves strict positivity of all counts. -/
lemma processRows_pos {today s e : Date} {rows : List Row} {dc : DailyCount}
    (h : ∀ kv ∈ dc, 1 ≤ kv.2) :
    ∀ kv ∈ (processRows today s e dc rows).1, 1 ≤ kv.2 := by
  induction rows generalizing dc with
  | nil => exact h
  | cons row rest ih =>
    obtain ⟨dt⟩ := row
    cases dt with
    | none =>
      simp only [processRows]
      exact ih h
    | some txt =>
      simp only [processRows]
      cases hnd : normalize_date txt today with
      | none => exact ih h
      | some parsed =>
        simp only
        by_cases h1 : Date.ltb parsed s = true
        · rw [if_pos h1]
          exact ih h
        · rw [if_neg h1]
          by_cases h2 : Date.ltb e parsed = true
          · rw [if_pos h2]
            exact ih h
          · rw [if_neg h2]
            exact ih (bump_pos h)

/-- The page loop preserves strict positivity of all counts. -/
lemma crawlPages_pos {fetch : Nat → FetchResult} {today s e : Date}
    {ps : List Nat} {dc : DailyCount} (h : ∀ kv ∈ dc, 1 ≤ kv.2) :
    ∀ kv ∈ (crawlPages fetch today s e ps dc).1, 1 ≤ kv.2 := by
  induction ps generalizing dc with
  | nil => exact h
  | cons p rest ih =>
    simp only [crawlPages]
    cases hf : fetch p with
    | readTimeout => exact ih h
    | requestError => exact ih h
    | response status rows =>
      simp only
      by_cases hs : status ≠ 200
      · rw [if_pos hs]
        exact ih h
      · rw [if_neg hs]
        by_cases hr : rows = []
        · rw [if_pos hr]
          exact h
        · rw [if_neg hr]
          split
          · exact processRows_pos h
          · exact ih (processRows_pos h)

/-- C10 — Every count in `get_counts_in_range`'s dictionary, and hence
in every row `fetch_counts` emits, is at least 1: a window date with
no matching rows produces no entry at all, never an entry with 0. -/
theorem spec_C10_counts_positive
    (fetch : Nat → FetchResult) (net : String → Nat → FetchResult)
    (brands : List String) (s e today : Date) (mp : Nat) :
    (∀ k v, (k, v) ∈ (get_counts_in_range fetch s e today mp).1 → 1 ≤ v) ∧
    (∀ r, r ∈ fetch_counts net brands s e today mp → 1 ≤ r.count) := by
  have main : ∀ (f : Nat → FetchResult) (k : Date) (v : Nat),
      (k, v) ∈ (get_counts_in_range f s e today mp).1 → 1 ≤ v := by
    intro f k v h
    exact crawlPages_pos (fun kv hkv => by simp at hkv) (k, v) h
  refine ⟨fun k v h => main fetch k v h, ?_⟩
  intro r hr
  simp only [fetch_counts] at hr
  split at hr
  · simp at hr
  · have hmem := (List.perm_insertionSort RowLe _).mem_iff.mp hr
    simp only [List.mem_flatMap, List.mem_map] at hmem
    obtain ⟨brand, _, kv, hkv, hrr⟩ := hmem
    obtain ⟨k, v⟩ := kv
    have := main (net brand) k v hkv
    rw [← hrr]
    exact this

/-- C10 witness: a crawl counting one row; its count 1 is certified
positive by the theorem. -/
theorem spec_C10_counts_positive_witness :
    ((⟨2024, 3, 2⟩, 1) ∈
      (get_counts_in_range
        (fun _ => .response 200 [⟨some "2024.03.02"⟩, ⟨some "2024.02.20"⟩])
        ⟨2024, 3, 1⟩ ⟨2024, 3, 3⟩ ⟨2024, 3, 5⟩ 3).1) ∧ 1 ≤ 1 :=
  ⟨by decide,
   (spec_C10_counts_positive
      (fun _ => .response 200 [⟨some "2024.03.02"⟩, ⟨some "2024.02.20"⟩])
      (fun _ _ => .response 200 []) []
      ⟨2024, 3, 1⟩ ⟨2024, 3, 3⟩ ⟨2024, 3, 5⟩ 3).1
      ⟨2024, 3, 2⟩ 1 (by decide)⟩

/-- C4 counterexample — the claim says the core entry point fails
fast with an explicit InvalidWindow error on an inverted window.  It
does not: `fetch_counts` performs no window validation (the check
lives in the Streamlit UI, `dc.py` lines 205-207) and on a window
with start 2024-03-10 > end 2024-03-01 it silently returns the empty
table, even though the source pages contain a row (2024-03-05) that
the flipped window would count — exactly the "Success with zero
matches" outcome the claim forbids. -/
theorem spec_C4_counterexample :
    Date.ltb ⟨2024, 3, 1⟩ ⟨2024, 3, 10⟩ = true ∧
    fetch_counts (fun _ _ => FetchResult.response 200 [⟨some "2024.03.05"⟩])
      ["X"] ⟨2024, 3, 10⟩ ⟨2024, 3, 1⟩ ⟨2024, 3, 12⟩ 2 = [] ∧
    fetch_counts (fun _ _ => FetchResult.response 200 [⟨some "2024.03.05"⟩])
      ["X"] ⟨2024, 3, 1⟩ ⟨2024, 3, 10⟩ ⟨2024, 3, 12⟩ 2 =
      [⟨"X", ⟨2024, 3, 5⟩, 2⟩] := by
  decide

/-- C4 (amended) — For every window with start > end the core returns
an empty result (the spec's allowed "crawl produces no rows"
alternative): every per-keyword dictionary and the final table are
empty, with no error; the up-front rejection of inverted windows is
performed by the UI layer, not by `fetch_counts`. -/
theorem spec_C4_inverted_window_empty
    (fetch : Nat → FetchResult) (net : String → Nat → FetchResult)
    (brands : List String) (s e today : Date) (mp : Nat)
    (hinv : Date.ltb e s = true) :
    (get_counts_in_range fetch s e today mp).1 = [] ∧
    fetch_counts net brands s e today mp = [] := by
  have main : ∀ f : Nat → FetchResult, (get_counts_in_range f s e today mp).1 = [] := by
    intro f
    rw [List.eq_nil_iff_forall_not_mem]
    intro kv hkv
    obtain ⟨k, v⟩ := kv
    rcases crawlPages_mem (h := hkv) with ⟨v', hv'⟩ | ⟨h1, h2⟩
    · simp at hv'
    · rw [Date.ltb_iff] at hinv
      simp only [Date.ltb, decide_eq_false_iff_not] at h1 h2
      push_neg at h1 h2
      omega
  refine ⟨main fetch, ?_⟩
  simp only [fetch_counts]
  have : ∀ b : String, (get_counts_in_range (net b) s e today mp).1 = [] :=
    fun b => main (net b)
  simp [this]

/-- C4 (amended) witness: concrete inverted window, concrete data. -/
theorem spec_C4_inverted_window_empty_witness :
    Date.ltb ⟨2024, 3, 1⟩ ⟨2024, 3, 10⟩ = true ∧
    (get_counts_in_range (fun _ => FetchResult.response 200 [⟨some "2024.03.05"⟩])
      ⟨2024, 3, 10⟩ ⟨2024, 3, 1⟩ ⟨2024, 3, 12⟩ 2).1 = [] ∧
    fetch_counts (fun _ _ => FetchResult.response 200 [⟨some "2024.03.05"⟩])
      ["X"] ⟨2024, 3, 10⟩ ⟨2024, 3, 1⟩ ⟨2024, 3, 12⟩ 2 = [] :=
  ⟨by decide,
   (spec_C4_inverted_window_empty
      (fun _ => FetchResult.response 200 [⟨some "2024.03.05"⟩])
      (fun _ _ => FetchResult.response 200 [⟨some "2024.03.05"⟩])
      ["X"] ⟨2024, 3, 10⟩ ⟨2024, 3, 1⟩ ⟨2024, 3, 12⟩ 2 (by decide)).1,
   (spec_C4_inverted_window_empty
      (fun _ => FetchResult.response 200 [⟨some "2024.03.05"⟩])
      (fun _ _ => FetchResult.response 200 [⟨some "2024.03.05"⟩])
      ["X"] ⟨2024, 3, 10⟩ ⟨2024, 3, 1⟩ ⟨2024, 3, 12⟩ 2 (by decide)).2⟩

/-- C5 — The normalizer's test vectors: the today-token maps to
`today`, the yesterday-token to the previous calendar day, a bare
time to `today`, a dotted full date to itself, a dotted month-day to
that month and day in `today`'s year, and unparseable text to
NotRecognized (`none`). -/
theorem spec_C5_normalizer_vectors (today : Date) :
    normalize_date "오늘" today = some today ∧
    normalize_date "어제" today = some (Date.pred today) ∧
    normalize_date "14:32" today = some today ∧
    normalize_date "2024.03.01" today = some ⟨2024, 3, 1⟩ ∧
    normalize_date "03.01" today = some ⟨today.year, 3, 1⟩ ∧
    normalize_date "not a date" today = none :=
  ⟨rfl, rfl, rfl, rfl, rfl, rfl⟩

/-- Successful `%Y` parse: the input starts with exactly four digits. -/
lemma parseY_eq {cs r : List Char} {y : Nat}
    (h : parseY cs = some (y, r)) :
    ∃ a b c d, cs = a :: b :: c :: d :: r ∧
      isDig a = true ∧ isDig b = true ∧ isDig c = true ∧ isDig d = true := by
  match cs with
  | [] => simp [parseY] at h
  | [a] => simp [parseY] at h
  | [a, b] => simp [parseY] at h
  | [a, b, c] => simp [parseY] at h
  | a :: b :: c :: d :: rest =>
    simp only [parseY] at h
    split at h
    · next hcond =>
      simp only [Bool.and_eq_true] at hcond
      injection h with h1
      simp only [Prod.mk.injEq] at h1
      obtain ⟨_, hr⟩ := h1
      subst hr
      exact ⟨a, b, c, d, rfl, hcond.1.1.1, hcond.1.1.2, hcond.1.2, hcond.2⟩
    · simp at h

/-- Successful `%y` parse: the input starts with exactly two digits. -/
lemma parseY2_eq {cs r : List Char} {y : Nat}
    (h : parseY2 cs = some (y, r)) :
    ∃ a b, cs = a :: b :: r ∧ isDig a = true ∧ isDig b = true := by
  match cs with
  | [] => simp [parseY2] at h
  | [a] => simp [parseY2] at h
  | a :: b :: rest =>
    simp only [parseY2] at h
    split at h
    · next hcond =>
      simp only [Bool.and_eq_true] at hcond
      injection h with h1
      simp only [Prod.mk.injEq] at h1
      obtain ⟨_, hr⟩ := h1
      subst hr
      exact ⟨a, b, rfl, hcond.1, hcond.2⟩
    · simp at h

/-- Successful `%m` parse: it consumes one character, or two whose
second is a digit. -/
lemma parseM_rest {cs r : List Char} {m : Nat}
    (h : parseM cs = some (m, r)) :
    (∃ a, cs = a :: r) ∨ (∃ a b, cs = a :: b :: r ∧ isDig b = true) := by
  match cs with
  | [] => simp [parseM] at h
  | [a] =>
    simp only [parseM] at h
    split at h
    · injection h with h1
      simp only [Prod.mk.injEq] at h1
      obtain ⟨_, hr⟩ := h1
      subst hr
      exact Or.inl ⟨a, rfl⟩
    · simp at h
  | a :: b :: rest2 =>
    simp only [parseM] at h
    split at h
    · next hc =>
      injection h with h1
      simp only [Prod.mk.injEq] at h1
      obtain ⟨_, hr⟩ := h1
      subst hr
      refine Or.inr ⟨a, b, rfl, ?_⟩
      simp only [isDig, Bool.and_eq_true, decide_eq_true_eq]
      omega
    · split at h
      · next hc =>
        injection h with h1
        simp only [Prod.mk.injEq] at h1
        obtain ⟨_, hr⟩ := h1
        subst hr
        refine Or.inr ⟨a, b, rfl, ?_⟩
        simp only [isDig, Bool.and_eq_true, decide_eq_true_eq]
        omega
      · split at h
        · injection h with h1
          simp only [Prod.mk.injEq] at h1
          obtain ⟨_, hr⟩ := h1
          subst hr
          exact Or.inl ⟨a, rfl⟩
        · simp at h

/-- A successful `expect` pins the head of the input. -/
lemma expect_eq {c : Char} {cs r : List Char} (h : expect c cs = some r) :
    cs = c :: r := by
  match cs with
  | [] => simp [expect] at h
  | x :: rest =>
    simp only [expect] at h
    split at h
    · next hx =>
      injection h with h1
      subst h1
      rw [hx]
    · simp at h

/-- `expect` of a non-digit separator fails on a digit head. -/
lemma expect_nondigit {c x : Char} {rest : List Char}
    (hx : isDig x = true) (hc : isDig c = false) :
    expect c (x :: rest) = none := by
  simp only [expect]
  rw [if_neg]
  intro he
  rw [he, hc] at hx
  exact absurd hx (by simp)

/-- The dash-separated format is disjoint from every dot- or
slash-separated format: a string it accepts starts with four digits
followed by a dash, which each of the other formats rejects at its
first separator (a digit is never a dot or a slash). -/
lemma dash_disjoint {today : Date} {cs : List Char} {d : Date}
    (h : runFmt today .YmdDash cs = some d) :
    runFmt today .ymdDot cs = none ∧ runFmt today .mdDot cs = none ∧
    runFmt today .mdSlash cs = none := by
  simp only [runFmt] at h
  cases hY : parseY cs with
  | none =>
    rw [hY, Option.none_bind] at h
    simp at h
  | some yr =>
    obtain ⟨y, r1⟩ := yr
    rw [hY, Option.some_bind] at h
    cases hE : expect '-' r1 with
    | none =>
      rw [hE, Option.none_bind] at h
      simp at h
    | some r2 =>
      obtain ⟨a, b, c, d4, hcs, ha, hb, hc4, hd4⟩ := parseY_eq hY
      have hr1 : r1 = '-' :: r2 := expect_eq hE
      subst hr1
      refine ⟨?_, ?_, ?_⟩
      · -- %y.%m.%d consumes two digits then demands a dot where the
        -- third digit sits
        simp only [runFmt]
        cases hY2 : parseY2 cs with
        | none => rw [Option.none_bind]
        | some yy =>
          obtain ⟨y2, rr⟩ := yy
          obtain ⟨a', b', hcs', _, _⟩ := parseY2_eq hY2
          rw [hcs] at hcs'
          injection hcs' with h1 h2
          injection h2 with h3 h4
          rw [Option.some_bind]
          simp only
          rw [← h4, expect_nondigit hc4 (by decide), Option.none_bind]
      · -- %m.%d consumes one or two digits then demands a dot where a
        -- digit sits
        simp only [runFmt]
        cases hM : parseM cs with
        | none => rw [Option.none_bind]
        | some mr =>
          obtain ⟨m, r⟩ := mr
          rw [Option.some_bind]
          simp only
          rcases parseM_rest hM with ⟨x, hx⟩ | ⟨x, y', hxy, hdig⟩
          · rw [hcs] at hx
            injection hx with h1 h2
            rw [← h2, expect_nondigit hb (by decide), Option.none_bind]
          · rw [hcs] at hxy
            injection hxy with h1 h2
            injection h2 with h3 h4
            rw [← h4, expect_nondigit hc4 (by decide), Option.none_bind]
      · -- %m/%d likewise never sees a slash
        simp only [runFmt]
        cases hM : parseM cs with
        | none => rw [Option.none_bind]
        | some mr =>
          obtain ⟨m, r⟩ := mr
          rw [Option.some_bind]
          simp only
          rcases parseM_rest hM with ⟨x, hx⟩ | ⟨x, y', hxy, hdig⟩
          · rw [hcs] at hx
            injection hx with h1 h2
            rw [← h2, expect_nondigit hb (by decide), Option.none_bind]
          · rw [hcs] at hxy
            injection hxy with h1 h2
            injection h2 with h3 h4
            rw [← h4, expect_nondigit hc4 (by decide), Option.none_bind]

/-- Trying the formats in the source's order is extensionally the
same as trying them in the specification's most-specific-first order:
the only format the two orders place differently relative to a
possible competitor is the dash-separated one, and it is disjoint
from all formats ordered across it. -/
lemma tryFormats_order (today : Date) (cs : List Char) :
    tryFormats today FORMATS cs = tryFormats today SPEC_FORMATS cs := by
  simp only [FORMATS, SPEC_FORMATS, tryFormats]
  cases hA : runFmt today .YmdDot cs with
  | some dA => rfl
  | none =>
    cases hE : runFmt today .YmdDash cs with
    | none => rfl
    | some dE =>
      obtain ⟨h1, h2, h3⟩ := dash_disjoint hE
      rw [h1, h2, h3]

/-- C6 — `normalize_date` first strips the text and keeps the part
before the first space, resolves the today/yesterday/time-of-day
special cases before any numeric parsing, and then resolves the
numeric formats as if tried most-specific-first (4-digit-year forms,
dot or dash separated, before the 2-digit-year form, before the
month-day-only forms), returning the first successful parse: it
coincides everywhere with the normalizer written in the
specification's order. -/
theorem spec_C6_resolution_order (text : String) (today : Date) :
    normalize_date text today = normalize_date_specOrder text today := by
  simp only [normalize_date, normalize_date_specOrder, tryFormats_order]

/-- Characters with equal code points are equal. -/
lemma charEq_of_toNat {a b : Char} (h : a.toNat = b.toNat) : a = b :=
  Char.ext (UInt32.ext h)

/-- Strings with equal character lists are equal. -/
lemma stringEq_of_data {a b : String} (h : a.data = b.data) : a = b := by
  cases a
  cases b
  simp only at h
  rw [h]

/-- Code-point string order is asymmetric. -/
lemma strLtb_asymm : ∀ {x y : List Char}, strLtb x y = true → strLtb y x = false
  | [], [], h => by simp [strLtb] at h
  | [], _ :: _, _ => rfl
  | _ :: _, [], h => by simp [strLtb] at h
  | a :: as, b :: bs, h => by
    simp only [strLtb] at h ⊢
    by_cases h1 : a.toNat < b.toNat
    · rw [if_neg (by omega), if_pos h1]
    · rw [if_neg h1] at h
      by_cases h2 : b.toNat < a.toNat
      · rw [if_pos h2] at h
        exact absurd h (by simp)
      · rw [if_neg h2] at h
        rw [if_neg h2, if_neg h1]
        exact strLtb_asymm h

/-- Code-point string order is connex: mutually non-less lists are
equal. -/
lemma strLtb_eq_of_not : ∀ {x y : List Char},
    strLtb x y = false → strLtb y x = false → x = y
  | [], [], _, _ => rfl
  | [], _ :: _, h1, _ => by simp [strLtb] at h1
  | _ :: _, [], _, h2 => by simp [strLtb] at h2
  | a :: as, b :: bs, h1, h2 => by
    simp only [strLtb] at h1 h2
    by_cases hab : a.toNat < b.toNat
    · rw [if_pos hab] at h1
      exact absurd h1 (by simp)
    · rw [if_neg hab] at h1
      by_cases hba : b.toNat < a.toNat
      · rw [if_pos hba] at h2
        exact absurd h2 (by simp)
      · rw [if_neg hba] at h1
        rw [if_neg hab, if_neg (by omega)] at h2
        have hab2 : a = b := charEq_of_toNat (by omega)
        rw [hab2, strLtb_eq_of_not h1 h2]

/-- Code-point string order is transitive. -/
lemma strLtb_trans : ∀ {x y z : List Char},
    strLtb x y = true → strLtb y z = true → strLtb x z = true
  | [], [], _, h1, _ => by simp [strLtb] at h1
  | [], _ :: _, [], _, h2 => by simp [strLtb] at h2
  | [], _ :: _, _ :: _, _, _ => rfl
  | _ :: _, [], _, h1, _ => by simp [strLtb] at h1
  | _ :: _, _ :: _, [], _, h2 => by simp [strLtb] at h2
  | a :: as, b :: bs, c :: cs, h1, h2 => by
    simp only [strLtb] at h1 h2 ⊢
    by_cases hab : a.toNat < b.toNat
    · by_cases hbc : b.toNat < c.toNat
      · rw [if_pos (by omega)]
      · rw [if_neg hbc] at h2
        by_cases hcb : c.toNat < b.toNat
        · rw [if_pos hcb] at h2
          exact absurd h2 (by simp)
        · rw [if_pos (by omega)]
    · rw [if_neg hab] at h1
      by_cases hba : b.toNat < a.toNat
      · rw [if_pos hba] at h1
        exact absurd h1 (by simp)
      · rw [if_neg hba] at h1
        by_cases hbc : b.toNat < c.toNat
        · rw [if_pos (by omega)]
        · rw [if_neg hbc] at h2
          by_cases hcb : c.toNat < b.toNat
          · rw [if_pos hcb] at h2
            exact absurd h2 (by simp)
          · rw [if_neg hcb] at h2
            rw [if_neg (by omega), if_neg (by omega)]
            exact strLtb_trans h1 h2

/-- The strict order never holds reflexively. -/
lemma strLtb_irrefl (x : List Char) : strLtb x x = false := by
  by_cases h : strLtb x x = true
  · have := strLtb_asymm h
    rw [h] at this
    exact absurd this (by simp)
  · simpa using h

/-- The (date, brand) sort order is total. -/
lemma RowLe_total (a b : ResultRow) : RowLe a b ∨ RowLe b a := by
  by_cases hd : Date.ltb a.date b.date = true
  · exact Or.inl (Or.inl hd)
  · by_cases hd' : Date.ltb b.date a.date = true
    · exact Or.inr (Or.inl hd')
    · have heq : a.date = b.date :=
        Date.eq_of_not_ltb (by simpa using hd) (by simpa using hd')
      by_cases hs : strLtb b.brand.data a.brand.data = true
      · refine Or.inr (Or.inr ⟨heq.symm, ?_⟩)
        simp [strLeb, strLtb_asymm hs]
      · refine Or.inl (Or.inr ⟨heq, ?_⟩)
        have hs' : strLtb b.brand.data a.brand.data = false :=
          Bool.eq_false_iff.mpr hs
        simp [strLeb, hs']

/-- The (date, brand) sort order is transitive. -/
lemma RowLe_trans {a b c : ResultRow} (h1 : RowLe a b) (h2 : RowLe b c) :
    RowLe a c := by
  rcases h1 with h1 | ⟨h1d, h1b⟩
  · rcases h2 with h2 | ⟨h2d, _⟩
    · exact Or.inl (Date.ltb_trans h1 h2)
    · exact Or.inl (h2d ▸ h1)
  · rcases h2 with h2 | ⟨h2d, h2b⟩
    · exact Or.inl (h1d ▸ h2)
    · refine Or.inr ⟨h1d.trans h2d, ?_⟩
      simp only [strLeb, Bool.not_eq_true'] at h1b h2b ⊢
      by_cases hca : strLtb c.brand.data a.brand.data = true
      · by_cases hab : strLtb a.brand.data b.brand.data = true
        · rw [strLtb_trans hca hab] at h2b
          exact absurd h2b (by simp)
        · have : a.brand.data = b.brand.data :=
            strLtb_eq_of_not (by simpa using hab) h1b
          rw [← this] at h2b
          rw [hca] at h2b
          exact absurd h2b (by simp)
      · simpa using hca

instance : IsTotal ResultRow RowLe := ⟨RowLe_total⟩

instance : IsTrans ResultRow RowLe := ⟨fun _ _ _ => RowLe_trans⟩


/-- `bump` adds the key `d` at the end if absent and otherwise leaves
the key list unchanged. -/
lemma bump_keys (dc : DailyCount) (d : Date) :
    (bump dc d).map Prod.fst =
      if d ∈ dc.map Prod.fst then dc.map Prod.fst
      else dc.map Prod.fst ++ [d] := by
  induction dc with
  | nil => simp [bump]
  | cons kv rest ih =>
    obtain ⟨k0, v0⟩ := kv
    simp only [bump]
    by_cases hk : k0 = d
    · subst hk
      simp
    · rw [if_neg hk]
      simp only [List.map_cons, ih, List.mem_cons]
      by_cases hm : d ∈ rest.map Prod.fst
      · rw [if_pos hm, if_pos (Or.inr hm)]
      · have hno : ¬(d = k0 ∨ d ∈ rest.map Prod.fst) := by
          rintro (h | h)
          · exact hk h.symm
          · exact hm h
        rw [if_neg hm, if_neg hno]
        simp

/-- `bump` preserves distinctness of the dictionary's keys. -/
lemma bump_keys_nodup {dc : DailyCount} {d : Date}
    (h : (dc.map Prod.fst).Nodup) : ((bump dc d).map Prod.fst).Nodup := by
  rw [bump_keys]
  split
  · exact h
  · next hmem =>
    simp [List.nodup_append, h, hmem]

/-- The row loop preserves distinctness of the dictionary's keys. -/
lemma processRows_keys_nodup {today s e : Date} {rows : List Row} {dc : DailyCount}
    (h : (dc.map Prod.fst).Nodup) :
    (((processRows today s e dc rows).1).map Prod.fst).Nodup := by
  induction rows generalizing dc with
  | nil => exact h
  | cons row rest ih =>
    obtain ⟨dt⟩ := row
    cases dt with
    | none =>
      simp only [processRows]
      exact ih h
    | some txt =>
      simp only [processRows]
      cases hnd : normalize_date txt today with
      | none => exact ih h
      | some parsed =>
        simp only
        by_cases h1 : Date.ltb parsed s = true
        · rw [if_pos h1]
          exact ih h
        · rw [if_neg h1]
          by_cases h2 : Date.ltb e parsed = true
          · rw [if_pos h2]
            exact ih h
          · rw [if_neg h2]
            exact ih (bump_keys_nodup h)

/-- The page loop preserves distinctness of the dictionary's keys. -/
lemma crawlPages_keys_nodup {fetch : Nat → FetchResult} {today s e : Date}
    {ps : List Nat} {dc : DailyCount} (h : (dc.map Prod.fst).Nodup) :
    (((crawlPages fetch today s e ps dc).1).map Prod.fst).Nodup := by
  induction ps generalizing dc with
  | nil => exact h
  | cons p rest ih =>
    simp only [crawlPages]
    cases hf : fetch p with
    | readTimeout => exact ih h
    | requestError => exact ih h
    | response status rows =>
      simp only
      by_cases hs : status ≠ 200
      · rw [if_pos hs]
        exact ih h
      · rw [if_neg hs]
        by_cases hr : rows = []
        · rw [if_pos hr]
          exact h
        · rw [if_neg hr]
          split
          · exact processRows_keys_nodup h
          · exact ih (processRows_keys_nodup h)

/-- With distinct brands, the flattened (brand, date) keys of the
pre-sort table are distinct. -/
lemma flat_keys_nodup (net : String → Nat → FetchResult)
    (s e today : Date) (mp : Nat) :
    ∀ (brands : List String), brands.Nodup →
    ((brands.flatMap (fun brand =>
        (get_counts_in_range (net brand) s e today mp).1.map
          (fun kv => (⟨brand, kv.1, kv.2⟩ : ResultRow)))).map rowKey).Nodup := by
  intro brands
  induction brands with
  | nil =>
    intro _
    simp
  | cons b rest ih =>
    intro hb
    obtain ⟨hbmem, hbrest⟩ := List.nodup_cons.mp hb
    simp only [List.flatMap_cons, List.map_append]
    rw [List.nodup_append]
    refine ⟨?_, ih hbrest, ?_⟩
    · rw [List.map_map]
      have hcomp : (rowKey ∘ fun kv : Date × Nat => (⟨b, kv.1, kv.2⟩ : ResultRow)) =
          (fun d => (b, d)) ∘ Prod.fst := rfl
      rw [hcomp, ← List.map_map]
      refine List.Nodup.map ?_ (crawlPages_keys_nodup (by simp))
      intro d1 d2 hdd
      injection hdd with _ h2
    · intro key h1 h2
      have hkb : key.1 = b := by
        simp only [List.map_map, List.mem_map, Function.comp_apply, rowKey] at h1
        obtain ⟨kv1, _, hkey1⟩ := h1
        rw [← hkey1]
      have hkrest : key.1 ∈ rest := by
        simp only [List.mem_map, List.mem_flatMap] at h2
        obtain ⟨r2, ⟨b2, hb2, kv2, _, hrr2⟩, hkey2⟩ := h2
        rw [← hkey2, ← hrr2]
        simpa [rowKey] using hb2
      rw [hkb] at hkrest
      exact hbmem hkrest

/-- C8 — With a duplicate-free keyword set (the spec's `keywords` is a
set), `fetch_counts` produces the table strictly ordered by date and
then by brand (hence deterministic), with at most one row per
(brand, date) pair and non-negative counts; if no keyword yields any
rows — in particular for an empty keyword list — the result is the
empty sequence, a valid non-error outcome. -/
theorem spec_C8_sorted_unique_table
    (net : String → Nat → FetchResult) (brands : List String)
    (s e today : Date) (mp : Nat) (hb : brands.Nodup) :
    (fetch_counts net brands s e today mp).Pairwise
      (fun a b => Date.ltb a.date b.date = true ∨
        (a.date = b.date ∧ strLtb a.brand.data b.brand.data = true)) ∧
    (fetch_counts net brands s e today mp).Pairwise
      (fun a b => ¬(a.brand = b.brand ∧ a.date = b.date)) ∧
    ((∀ b ∈ brands, (get_counts_in_range (net b) s e today mp).1 = []) →
      fetch_counts net brands s e today mp = []) ∧
    (∀ r ∈ fetch_counts net brands s e today mp, 0 ≤ r.count) := by
  have hstrict : (fetch_counts net brands s e today mp).Pairwise
      (fun a b => Date.ltb a.date b.date = true ∨
        (a.date = b.date ∧ strLtb a.brand.data b.brand.data = true)) := by
    simp only [fetch_counts]
    split
    · exact List.Pairwise.nil
    · have hsorted := List.sorted_insertionSort RowLe
        (brands.flatMap (fun brand =>
          (get_counts_in_range (net brand) s e today mp).1.map
            (fun kv => (⟨brand, kv.1, kv.2⟩ : ResultRow))))
      have hperm := List.perm_insertionSort RowLe
        (brands.flatMap (fun brand =>
          (get_counts_in_range (net brand) s e today mp).1.map
            (fun kv => (⟨brand, kv.1, kv.2⟩ : ResultRow))))
      have hkeys0 := flat_keys_nodup net s e today mp brands hb
      have hkeys := (List.Perm.nodup_iff (hperm.map rowKey)).mpr hkeys0
      rw [List.Nodup, List.pairwise_map] at hkeys
      refine (hsorted.and hkeys).imp ?_
      intro a b hab
      obtain ⟨hle, hne⟩ := hab
      rcases hle with h | ⟨hd, hbr⟩
      · exact Or.inl h
      · refine Or.inr ⟨hd, ?_⟩
        by_cases hst : strLtb a.brand.data b.brand.data = true
        · exact hst
        · exfalso
          have h1 : strLtb a.brand.data b.brand.data = false :=
            Bool.eq_false_iff.mpr hst
          have h2 : strLtb b.brand.data a.brand.data = false := by
            simpa [strLeb] using hbr
          have hbrand : a.brand = b.brand :=
            stringEq_of_data (strLtb_eq_of_not h1 h2)
          exact hne (by simp [rowKey, hbrand, hd])
  refine ⟨hstrict, ?_, ?_, fun r _ => Nat.zero_le _⟩
  · refine hstrict.imp ?_
    intro a b h hc
    obtain ⟨hbrand, hdate⟩ := hc
    rcases h with h | ⟨_, hs⟩
    · rw [hdate, Date.ltb_irrefl] at h
      exact absurd h (by simp)
    · rw [hbrand, strLtb_irrefl] at hs
      exact absurd hs (by simp)
  · intro hall
    have hAD : (brands.flatMap (fun brand =>
        (get_counts_in_range (net brand) s e today mp).1.map
          (fun kv => (⟨brand, kv.1, kv.2⟩ : ResultRow)))) = [] := by
      rw [List.eq_nil_iff_forall_not_mem]
      intro r hr
      simp only [List.mem_flatMap, List.mem_map] at hr
      obtain ⟨b2, hb2, kv, hkv, _⟩ := hr
      rw [hall b2 hb2] at hkv
      simp at hkv
    simp [fetch_counts, hAD]

/-- C8 witness: two brands in reverse alphabetical order, one page
each; the theorem certifies the sorted, duplicate-free table. -/
theorem spec_C8_sorted_unique_table_witness :
    (["b", "a"] : List String).Nodup ∧
    ((fetch_counts (fun _ _ => FetchResult.response 200 [⟨some "2024.03.03"⟩])
        ["b", "a"] ⟨2024, 3, 1⟩ ⟨2024, 3, 3⟩ ⟨2024, 3, 5⟩ 1).Pairwise
      (fun a b => Date.ltb a.date b.date = true ∨
        (a.date = b.date ∧ strLtb a.brand.data b.brand.data = true)) ∧
    (fetch_counts (fun _ _ => FetchResult.response 200 [⟨some "2024.03.03"⟩])
        ["b", "a"] ⟨2024, 3, 1⟩ ⟨2024, 3, 3⟩ ⟨2024, 3, 5⟩ 1).Pairwise
      (fun a b => ¬(a.brand = b.brand ∧ a.date = b.date)) ∧
    ((∀ b ∈ (["b", "a"] : List String),
        (get_counts_in_range ((fun _ _ => FetchResult.response 200 [⟨some "2024.03.03"⟩]) b)
          ⟨2024, 3, 1⟩ ⟨2024, 3, 3⟩ ⟨2024, 3, 5⟩ 1).1 = []) →
      fetch_counts (fun _ _ => FetchResult.response 200 [⟨some "2024.03.03"⟩])
        ["b", "a"] ⟨2024, 3, 1⟩ ⟨2024, 3, 3⟩ ⟨2024, 3, 5⟩ 1 = []) ∧
    (∀ r, r ∈ fetch_counts (fun _ _ => FetchResult.response 200 [⟨some "2024.03.03"⟩])
        ["b", "a"] ⟨2024, 3, 1⟩ ⟨2024, 3, 3⟩ ⟨2024, 3, 5⟩ 1 → 0 ≤ r.count)) :=
  ⟨by decide,
   spec_C8_sorted_unique_table (fun _ _ => FetchResult.response 200 [⟨some "2024.03.03"⟩])
     ["b", "a"] ⟨2024, 3, 1⟩ ⟨2024, 3, 3⟩ ⟨2024, 3, 5⟩ 1 (by decide)⟩
